/-
Verification of the NachOS MP4 filesystem facade (`code/filesys/filesys.cc`).

The facade itself (`FileSystem::Create`, `CreateDirectory`, `OpenDir`, `Open`,
`Remove`, `SplitPath`, `JoinPath`, and the descriptor-table layer
`Open(char*,int)` / `Write` / `Read` / `Close`) is translated directly from
`filesys.cc`.  The helper classes it relies on (`PersistentBitmap`,
`FileHeader`, `Directory`) live in files that are not part of this tree, so
they are modelled from the design document's contracts (sections 4.1 - 4.3);
each such definition is marked "Modelled from the spec".

The disk is modelled at the granularity the facade observes it:
  * the serialized content of the free-sector bitmap file,
  * the table content of each directory file, keyed by its header sector,
  * the `FileHeader` stored at each sector that holds one.
Open-file handles are identified with the header sector they were opened on.
All machine ints that matter here are small non-negative counters and sector
indices; they are modelled as `Nat`, with `Int` kept exactly where the source
uses `-1` as an error value.
-/
import Mathlib

set_option autoImplicit false
set_option maxRecDepth 10000

/-! ### Build-time constants (disk.h / filehdr.h / filesys.cc) -/

/-- Bytes per disk sector (`SectorSize` in disk.h). -/
def SectorSize : Nat := 128

/-- Number of sectors on the disk (`NumSectors` in disk.h). -/
def NumSectors : Nat := 128

/-- Direct pointers per header: `(SectorSize - 3 * sizeof(int)) / sizeof(int)`. -/
def NumDirect : Nat := (SectorSize - 3 * 4) / 4

/-- Constant `#define NumDirEntries 64` in filesys.cc. -/
def NumDirEntries : Nat := 64

/-- Maximum file-name length stored in a directory entry (`FileNameMaxLen`). -/
def FileNameMaxLen : Nat := 9

/-- Size in bytes of the on-disk `DirectoryEntry` record
(`inUse:bool, type:bool, sector:int, name:char[FileNameMaxLen+1]`, padded). -/
def sizeofDirectoryEntry : Nat := 20

/-- Constant `#define FreeMapSector 0`. -/
def FreeMapSector : Nat := 0

/-- Constant `#define DirectorySector 1`. -/
def DirectorySector : Nat := 1

/-- Constant `#define FreeMapFileSize (NumSectors / BitsInByte)`. -/
def FreeMapFileSize : Nat := NumSectors / 8

/-- Constant `#define DirectoryFileSize (sizeof(DirectoryEntry) * NumDirEntries)`. -/
def DirectoryFileSize : Nat := sizeofDirectoryEntry * NumDirEntries

/-- Utility `divRoundUp(n, d) = (n + d - 1) / d` from the NachOS utility header. -/
def divRoundUp (n d : Nat) : Nat := (n + d - 1) / d

/-! ### Free-sector bitmap (pbitmap / bitmap, modelled from the spec §4.1) -/

/-- Modelled from the spec: the persistent free-sector bitmap
(`PersistentBitmap`, whose source is not under src/).  `bits` is the logical
array of `NumSectors` booleans; a `true` bit means the sector is allocated. -/
structure Bitmap where
  bits : List Bool
deriving Repr, DecidableEq

/-- Modelled from the spec: `Bitmap(S)` starts all clear. -/
def Bitmap.new (s : Nat) : Bitmap := ⟨List.replicate s false⟩

/-- Modelled from the spec: `Mark(i)` sets bit `i`. -/
def Bitmap.mark (b : Bitmap) (i : Nat) : Bitmap := ⟨b.bits.set i true⟩

/-- Modelled from the spec: `Clear(i)` clears bit `i`. -/
def Bitmap.clearBit (b : Bitmap) (i : Nat) : Bitmap := ⟨b.bits.set i false⟩

/-- Modelled from the spec: `Test(i)` reads bit `i`. -/
def Bitmap.test (b : Bitmap) (i : Nat) : Bool := b.bits.getD i false

/-- Modelled from the spec: `FindAndSet` scans for the first clear bit, sets
it and returns its index; `none` models the C return value `-1`. -/
def Bitmap.findAndSet? (b : Bitmap) : Option (Nat × Bitmap) :=
  match b.bits.findIdx? (fun x => !x) with
  | some i => some (i, b.mark i)
  | none => none

/-- Result of `n` consecutive `FindAndSet` calls. -/
structure FasN where
  sectors : List Nat
  fm : Bitmap
  ok : Bool
deriving Repr, DecidableEq

/-- Performs `n` consecutive `FindAndSet` calls, stopping at the first failure (this is
the level-1 sector loop of `FileSystem::Create` and the sector loop inside
`FileHeader::Allocate`). -/
def findAndSetN (b : Bitmap) : Nat → FasN
  | 0 => ⟨[], b, true⟩
  | n + 1 =>
    match b.findAndSet? with
    | none => ⟨[], b, false⟩
    | some (s, b') =>
      let r := findAndSetN b' n
      ⟨s :: r.sectors, r.fm, r.ok⟩

/-- Clear a list of bits in order (a sequence of `Clear` calls). -/
def clearMany (fm : Bitmap) (l : List Nat) : Bitmap := l.foldl Bitmap.clearBit fm

/-! ### File headers (filehdr, modelled from the spec §4.2) -/

/-- The one-sector file-header record: `numBytes`, `numSectors`, `level`,
`dataSectors[NumDirect]`.  `dataSectors` is modelled as the populated part of
the fixed array; reads beyond its length return the garbage value `0`. -/
structure FileHeader where
  numBytes : Nat
  numSectors : Nat
  level : Nat
  dataSectors : List Nat
deriving Repr, DecidableEq, Inhabited

/-- The sectors a header directly references: `dataSectors[0 .. numSectors)`. -/
def FileHeader.ownedDirect (hdr : FileHeader) : List Nat :=
  (List.range hdr.numSectors).map (fun i => hdr.dataSectors.getD i 0)

/-- Modelled from the spec: `FileHeader::Allocate(freeMap, fileSize)` (filehdr.cc
is not under src/).  Computes `n = ceil(bytes / SectorSize)`, fails if
`n > NumDirect`, otherwise draws `n` sectors with `FindAndSet`; it records
`numBytes`, `numSectors` and the drawn sectors, and reports failure if any
`FindAndSet` failed (the caller then discards the bitmap without flushing). -/
def FileHeader.Allocate (hdr : FileHeader) (freeMap : Bitmap) (fileSize : Nat) :
    Bool × FileHeader × Bitmap :=
  let n := divRoundUp fileSize SectorSize
  if n > NumDirect then (false, hdr, freeMap)
  else
    let r := findAndSetN freeMap n
    (r.ok, { hdr with numBytes := fileSize, numSectors := n, dataSectors := r.sectors }, r.fm)

/-- Modelled from the spec: `FileHeader::Deallocate(freeMap)` clears every bit
referenced by `dataSectors[0 .. numSectors)`; it does not clear the header's
own sector. -/
def FileHeader.Deallocate (hdr : FileHeader) (fm : Bitmap) : Bitmap :=
  clearMany fm hdr.ownedDirect

/-! ### Directories (directory, modelled from the spec §4.3) -/

/-- One directory-table slot: `inUse`, `type` (false = file, true =
subdirectory), `sector` (header sector of the entry), `name`. -/
structure DirectoryEntry where
  inUse : Bool
  type : Bool
  sector : Nat
  name : String
deriving Repr, DecidableEq, Inhabited

/-- A directory: a fixed table of `NumDirEntries` slots. -/
structure Directory where
  table : List DirectoryEntry
deriving Repr, DecidableEq

/-- Translation of `new Directory(NumDirEntries)`: all slots free. -/
def Directory.new : Directory := ⟨List.replicate NumDirEntries default⟩

/-- Modelled from the spec: `Directory::Find(name)` scans in-use entries for
`name` and returns the entry's sector, `-1` if absent. -/
def Directory.Find (d : Directory) (n : String) : Int :=
  match d.table.find? (fun e => e.inUse && e.name == n) with
  | some e => Int.ofNat e.sector
  | none => -1

/-- Modelled from the spec: `Directory::FindIndex(name)` returns the slot
index of the in-use entry named `name`, `-1` if absent. -/
def Directory.FindIndex (d : Directory) (n : String) : Int :=
  match d.table.findIdx? (fun e => e.inUse && e.name == n) with
  | some i => Int.ofNat i
  | none => -1

/-- Read slot `i` of the table (`directory->table[i]`). -/
def Directory.entryAt (d : Directory) (i : Int) : DirectoryEntry :=
  d.table.getD i.toNat default

/-- Name truncation performed by `strncpy(..., name, FileNameMaxLen)`. -/
def truncName (n : String) : String := String.mk (n.data.take FileNameMaxLen)

/-- Modelled from the spec: `Directory::Add(name, sector)` places a file entry
in the first free slot; it fails if the name is already present or the table
is full.  Stored names are truncated to `FileNameMaxLen` characters. -/
def Directory.Add (d : Directory) (n : String) (sector : Nat) : Bool × Directory :=
  if d.FindIndex n ≠ -1 then (false, d)
  else
    match d.table.findIdx? (fun e => !e.inUse) with
    | some i => (true, ⟨d.table.set i ⟨true, false, sector, truncName n⟩⟩)
    | none => (false, d)

/-- Modelled from the spec: `Directory::AddDir(name, sector)` is `Add` with
the subdirectory type bit set. -/
def Directory.AddDir (d : Directory) (n : String) (sector : Nat) : Bool × Directory :=
  if d.FindIndex n ≠ -1 then (false, d)
  else
    match d.table.findIdx? (fun e => !e.inUse) with
    | some i => (true, ⟨d.table.set i ⟨true, true, sector, truncName n⟩⟩)
    | none => (false, d)

/-- Modelled from the spec: `Directory::Remove(name)` clears the `inUse` flag
on the matching slot. -/
def Directory.Remove (d : Directory) (n : String) : Bool × Directory :=
  match d.table.findIdx? (fun e => e.inUse && e.name == n) with
  | some i => (true, ⟨d.table.set i { d.table.getD i default with inUse := false }⟩)
  | none => (false, d)

/-! ### The on-disk state seen by the facade -/

/-- Association-list update (replace the binding of `k`, or append it). -/
def setAssoc {α : Type} (l : List (Nat × α)) (k : Nat) (v : α) : List (Nat × α) :=
  match l with
  | [] => [(k, v)]
  | (k', v') :: rest => if k' = k then (k, v) :: rest else (k', v') :: setAssoc rest k v

/-- Association-list lookup. -/
def getAssoc {α : Type} (l : List (Nat × α)) (k : Nat) : Option α :=
  match l with
  | [] => none
  | (k', v') :: rest => if k' = k then some v' else getAssoc rest k

/-- The on-disk state: the content of the bitmap file, the table content of
each directory file (keyed by its header sector), and the header stored at
each sector that holds one. -/
structure FS where
  freeMapDisk : Bitmap
  dirDisk : List (Nat × Directory)
  headers : List (Nat × FileHeader)
deriving Repr, DecidableEq

def FS.hdrAt (st : FS) (s : Nat) : Option FileHeader := getAssoc st.headers s

def FS.dirAt (st : FS) (s : Nat) : Option Directory := getAssoc st.dirDisk s

/-- Translation of `FileHeader::WriteBack(sector)`. -/
def FS.writeHdr (st : FS) (s : Nat) (h : FileHeader) : FS :=
  { st with headers := setAssoc st.headers s h }

/-- Translation of `Directory::WriteBack` through the file whose header is at `s`. -/
def FS.writeDir (st : FS) (s : Nat) (d : Directory) : FS :=
  { st with dirDisk := setAssoc st.dirDisk s d }

/-- Write a list of headers back in order (`level1Hdr[i].WriteBack(...)`). -/
def writeHdrs (st : FS) : List (Nat × FileHeader) → FS
  | [] => st
  | (s, h) :: rest => writeHdrs (st.writeHdr s h) rest

/-! ### Path handling (`FileSystem::SplitPath`, `JoinPath`, `OpenDir`) -/

/-- Index of the last `'/'` in a character list, if any (the backwards scan of
`SplitPath`). -/
def lastSlashIdx (cs : List Char) : Option Nat :=
  match cs.reverse.findIdx? (fun c => c == '/') with
  | some j => some (cs.length - 1 - j)
  | none => none

/-- Translation of `FileSystem::SplitPath(fullpath, parent, name)`.  The source copies
`fullpath` into `parent`, scans `idx` backwards to the last `'/'`, writes
`parent[idx] = 0`, copies `name` from `parent + idx + 1`, and substitutes
`"/"` when `parent` ended up empty.  When the path contains no `'/'` the scan
ends with `idx = -1`, so the store `parent[idx] = 0` lands one byte before the
buffer: it cannot change the parent string itself, so `parent` keeps the whole
input (with nonzero length) and `name` is copied from `parent + 0`. -/
def SplitPath (fullpath : String) : String × String :=
  let cs := fullpath.data
  match lastSlashIdx cs with
  | some idx =>
    let parentTrunc := String.mk (cs.take idx)
    let nm := String.mk (cs.drop (idx + 1))
    (if parentTrunc.length = 0 then "/" else parentTrunc, nm)
  | none =>
    (if fullpath.length = 0 then "/" else fullpath, fullpath)

/-- Translation of `FileSystem::JoinPath(dest, parent, name)`: append `"/"` unless `parent`
already ends in one, then append `name`.  (For an empty `parent` the source
reads `dest[-1]`, which is out of bounds; that case is never exercised by the
facade, and the model simply inserts the slash then.) -/
def JoinPath (parent nm : String) : String :=
  if parent.data.getLast? = some '/' then parent ++ nm else parent ++ "/" ++ nm

/-- Split a character list at every `'/'` (helper for the `strtok` loop). -/
def splitSlashAux : List Char → List Char → List String
  | [], acc => [String.mk acc.reverse]
  | c :: rest, acc =>
    if c = '/' then String.mk acc.reverse :: splitSlashAux rest []
    else splitSlashAux rest (c :: acc)

/-- The `strtok(path, "/")` tokenization: the non-empty slash-separated pieces. -/
def tokenize (s : String) : List String :=
  (splitSlashAux s.data []).filter (fun t => t != "")

/-- The component walk of `OpenDir`: look each token up in the current table
and descend into the directory file at the found sector.  Reading a sector
that holds no directory file yields an unconstrained table; the model reads it
as the empty table. -/
def openDirWalk (st : FS) : List String → Directory → Nat → Option Nat
  | [], _, sector => some sector
  | t :: rest, dir, _ =>
    let s := dir.Find t
    if s = -1 then none
    else openDirWalk st rest ((st.dirAt s.toNat).getD Directory.new) s.toNat

/-- Translation of `FileSystem::OpenDir(inpath)`: start from the root directory (sector 1)
and walk the tokens; the returned handle is identified with the final header
sector. -/
def FS.OpenDir (st : FS) (inpath : String) : Option Nat :=
  openDirWalk st (tokenize inpath) ((st.dirAt DirectorySector).getD Directory.new) DirectorySector

/-- Translation of `FileSystem::Open(name)`: resolve the parent, look the name up, and return
a handle (the header sector) if found. -/
def FS.Open (st : FS) (name : String) : Option Nat :=
  let parent := (SplitPath name).1
  let filename := (SplitPath name).2
  match st.OpenDir parent with
  | none => none
  | some psec =>
    let directory := (st.dirAt psec).getD Directory.new
    let sector := directory.Find filename
    if sector ≥ 0 then some sector.toNat else none

/-! ### `FileSystem::Create` -/

/-- Fuel-indexed form of the `while (remainFileSize > 0)` loop of `Create`:
each pass requests a full `NumDirect * SectorSize` chunk or the remainder.
Every pass shrinks `remain` by at least one, so fuel `remain` suffices. -/
def allocSharesGo : Nat → Nat → List Nat
  | 0, _ => []
  | fuel + 1, remain =>
    if remain = 0 then []
    else
      let toRequest := if remain ≥ NumDirect * SectorSize then NumDirect * SectorSize else remain
      toRequest :: allocSharesGo fuel (remain - toRequest)

/-- The byte shares requested from the level-1 headers by `Create`'s loop. -/
def allocShares (remain : Nat) : List Nat := allocSharesGo remain remain

/-- Result of running `FileHeader::Allocate` over a list of byte shares. -/
structure AllocShares where
  ok : Bool
  fm : Bitmap
  hdrs : List FileHeader
deriving Repr, DecidableEq

/-- The level-1 allocation loop of `Create`: each header starts with
`level = 1` and calls `Allocate` for its share; a failure clears the overall
success flag but the loop keeps going, exactly as in the source. -/
def allocateShares (fm : Bitmap) : List Nat → AllocShares
  | [] => ⟨true, fm, []⟩
  | b :: rest =>
    let r := FileHeader.Allocate ⟨0, 0, 1, []⟩ fm b
    let rr := allocateShares r.2.2 rest
    ⟨r.1 && rr.ok, rr.fm, r.2.1 :: rr.hdrs⟩

/-- Result of `FileSystem::Create`, keeping (for the statements below) the
local variables `sector` and `level1Sector[]` alongside the returned success
flag and the resulting disk state. -/
structure CreateResult where
  success : Bool
  st : FS
  rootSector : Option Nat
  level1Sectors : List Nat
deriving Repr, DecidableEq

/-- Translation of `FileSystem::Create(name, initialSize)`, branch for branch.
All disk writes (`hdr->WriteBack`, the level-1 `WriteBack`s,
`directory->WriteBack`, `freeMap->WriteBack`) happen only in the
all-successful branch; every failure path returns the incoming state. -/
def FS.Create (st : FS) (name : String) (initialSize : Nat) : CreateResult :=
  let NumOfLevel1Hdr := divRoundUp initialSize (SectorSize * NumDirect)
  let parent := (SplitPath name).1
  let filename := (SplitPath name).2
  match st.OpenDir parent with
  | none => ⟨false, st, none, []⟩
  | some psec =>
    let directory := (st.dirAt psec).getD Directory.new
    if directory.Find filename ≠ -1 then ⟨false, st, none, []⟩
    else
      let freeMap := st.freeMapDisk
      match freeMap.findAndSet? with
      | none =>
        -- the header FindAndSet returned -1; the level-1 loop still runs on
        -- the (unchanged) in-memory map, then `sector == -1` fails the call
        ⟨false, st, none, (findAndSetN freeMap NumOfLevel1Hdr).sectors⟩
      | some (sector, fm1) =>
        let r1 := findAndSetN fm1 NumOfLevel1Hdr
        if !r1.ok then ⟨false, st, some sector, r1.sectors⟩
        else
          let addRes := directory.Add filename sector
          if !addRes.1 then ⟨false, st, some sector, r1.sectors⟩
          else
            let hdr : FileHeader := ⟨initialSize, NumOfLevel1Hdr, 0, r1.sectors⟩
            let a := allocateShares r1.fm (allocShares initialSize)
            if a.ok then
              let st1 := st.writeHdr sector hdr
              let st2 := writeHdrs st1 (r1.sectors.zip a.hdrs)
              let st3 := st2.writeDir psec addRes.2
              ⟨true, { st3 with freeMapDisk := a.fm }, some sector, r1.sectors⟩
            else ⟨false, st, some sector, r1.sectors⟩

/-- Translation of `FileSystem::CreateDirectory(name, parent)`. -/
def FS.CreateDirectory (st : FS) (name parent : String) : Bool × FS :=
  match st.OpenDir parent with
  | none => (false, st)
  | some psec =>
    let directory := (st.dirAt psec).getD Directory.new
    if directory.Find name ≠ -1 then (false, st)
    else
      match st.freeMapDisk.findAndSet? with
      | none => (false, st)
      | some (sector, fm1) =>
        let addRes := directory.AddDir name sector
        if !addRes.1 then (false, st)
        else
          let r := FileHeader.Allocate ⟨0, 0, 1, []⟩ fm1 DirectoryFileSize
          if !r.1 then (false, st)
          else
            let st1 := st.writeHdr sector r.2.1
            let st2 := st1.writeDir psec addRes.2
            let st3 := { st2 with freeMapDisk := r.2.2 }
            (true, st3.writeDir sector Directory.new)

/-! ### `FileSystem::Remove` -/

/-- Result of `FileSystem::Remove`: success flag, resulting disk state, and
the diagnostic this invocation prints (children's diagnostics are not
tracked). -/
structure RemoveResult where
  success : Bool
  st : FS
  diag : Option String
deriving Repr, DecidableEq

/-- The level-0 child loop of `Remove` (lines 498-507): fetch each level-1
header named by the root and `Deallocate` it into the working bitmap.  The
child header sectors themselves are left to the root's own `Deallocate`. -/
def deallocChildren (st : FS) (fm : Bitmap) : List Nat → Bitmap
  | [] => fm
  | s :: rest => deallocChildren st (((st.hdrAt s).getD default).Deallocate fm) rest

/-- The unconditional tail of `Remove` (lines 498-519): the level-0 child
loop, `fileHdr->Deallocate`, `freeMap->Clear(sector)`,
`directory->Remove(filename)`, then flush bitmap and parent directory. -/
def finishRemove (st : FS) (freeMap : Bitmap) (directory : Directory)
    (fileHdr : FileHeader) (sector : Nat) (psec : Nat) (filename : String) : RemoveResult :=
  let fm1 := if fileHdr.level = 0 then deallocChildren st freeMap fileHdr.ownedDirect else freeMap
  let fm2 := fileHdr.Deallocate fm1
  let fm3 := fm2.clearBit sector
  let dir2 := (directory.Remove filename).2
  let st1 := { st with freeMapDisk := fm3 }
  ⟨true, st1.writeDir psec dir2, none⟩

/-- The child-removal loop of `Remove`, parameterized over the recursive call
`rm`: the boolean result of each recursive `Remove` is discarded
(`Remove(nextFilename, recur);` as a statement), only its effect on the disk
is threaded through. -/
def removeChildren (rm : FS → String → RemoveResult) (name : String) :
    FS → List DirectoryEntry → FS
  | st, [] => st
  | st, e :: rest =>
    if e.inUse then
      removeChildren rm name (rm st (JoinPath name e.name)).st rest
    else
      removeChildren rm name st rest

/-- Translation of `FileSystem::Remove(name, recur)`, branch for branch, with a
recursion-depth fuel (the C++ code recurses without a bound).  Note the
source's ordering, kept here: the working bitmap `freeMap` and the parent
table `directory` are loaded *before* the recursive child removals, and are
written back after them. -/
def FS.Remove : Nat → FS → String → Bool → RemoveResult
  | 0, st, _, _ => ⟨false, st, none⟩
  | f + 1, st, name, recur =>
    let parent := (SplitPath name).1
    let filename := (SplitPath name).2
    match st.OpenDir parent with
    | none => ⟨false, st, some ("Directory " ++ parent ++ " not found!")⟩
    | some psec =>
      let directory := (st.dirAt psec).getD Directory.new
      let sector := directory.Find filename
      let tableIdx := directory.FindIndex filename
      if sector = -1 then ⟨false, st, some ("File " ++ filename ++ " not found!")⟩
      else
        let fileHdr := (st.hdrAt sector.toNat).getD default
        let freeMap := st.freeMapDisk
        if (directory.entryAt tableIdx).type then
          let nextDir := ((st.OpenDir name).bind st.dirAt).getD Directory.new
          let totalCount := nextDir.table.countP (fun e => e.inUse)
          if recur = false ∧ totalCount ≠ 0 then
            ⟨false, st, some (filename ++ ": directory not empty!")⟩
          else
            let st1 := removeChildren (fun s n => FS.Remove f s n recur) name st nextDir.table
            finishRemove st1 freeMap directory fileHdr sector.toNat psec filename
        else
          finishRemove st freeMap directory fileHdr sector.toNat psec filename

/-! ### Descriptor table (`Open(char*,int)`, `Write`, `Read`, `Close`) -/

/-- The 20-slot `fileDescriptorTable`; a slot holds the handle (identified
with its header sector) or `none` for `NULL`. -/
abbrev FdTable := List (Option Nat)

/-- The table right after the constructor: all 20 slots `NULL`. -/
def initFdTable : FdTable := List.replicate 20 none

/-- The slot scan of `Open(char*, int)`: the first `i` in `[1, 20)` whose slot
is `NULL`. -/
def firstFreeFd (fdt : FdTable) : Option Nat :=
  (List.range' 1 19).find? (fun i => (fdt.getD i none).isNone)

/-- Translation of `FileSystem::Open(char* name, int unused)`: open the file, then store the
resulting handle - null or not - in the first free slot of `[1, 20)` and
return that index; `-1` only when every slot is occupied. -/
def FS.openFd (st : FS) (fdt : FdTable) (name : String) : Int × FdTable :=
  let fp := st.Open name
  match firstFreeFd fdt with
  | some i => (Int.ofNat i, fdt.set i fp)
  | none => (-1, fdt)

/-- Translation of `FileSystem::Write(buffer, size, fileid)`.  The source indexes
`fileDescriptorTable[fileid]` with no range check; the model returns `none`
for an index outside the 20-slot table (an out-of-bounds access in C).  The
byte-level `OpenFile::Write` is external; `delegate` stands for its result on
the slot's handle. -/
def writeFd (delegate : Nat → Int) (fdt : FdTable) (id : Int) : Option Int :=
  if 0 ≤ id ∧ id < 20 then
    match fdt.getD id.toNat none with
    | none => some (-1)
    | some f => some (delegate f)
  else none

/-- Translation of `FileSystem::Read(buffer, size, fileid)`, symmetric to `writeFd`. -/
def readFd (delegate : Nat → Int) (fdt : FdTable) (id : Int) : Option Int :=
  if 0 ≤ id ∧ id < 20 then
    match fdt.getD id.toNat none with
    | none => some (-1)
    | some f => some (delegate f)
  else none

/-- Translation of `FileSystem::Close(fileid)`: return 0 on an empty slot, otherwise release
the handle, clear the slot and return 1.  As in `writeFd`, an index outside
`[0, 20)` is an out-of-bounds access, modelled as `none`. -/
def closeFd (fdt : FdTable) (id : Int) : Option (Int × FdTable) :=
  if 0 ≤ id ∧ id < 20 then
    match fdt.getD id.toNat none with
    | none => some (0, fdt)
    | some _ => some (1, fdt.set id.toNat none)
  else none

/-! ### Format bootstrap (`FileSystem::FileSystem(format = true)`) -/

/-- The freshly formatted disk: mark sectors 0 and 1, allocate the bitmap and
directory headers (both `level = 1`; the source `ASSERT`s both allocations
succeed), write the two headers to sectors 0 and 1, then flush the bitmap and
an empty root directory through their files. -/
def formatFS : FS :=
  let freeMap := ((Bitmap.new NumSectors).mark FreeMapSector).mark DirectorySector
  let rMap := FileHeader.Allocate ⟨0, 0, 1, []⟩ freeMap FreeMapFileSize
  let rDir := FileHeader.Allocate ⟨0, 0, 1, []⟩ rMap.2.2 DirectoryFileSize
  { freeMapDisk := rDir.2.2
    dirDisk := [(DirectorySector, Directory.new)]
    headers := [(FreeMapSector, rMap.2.1), (DirectorySector, rDir.2.1)] }

/-! ### Reachable sectors (for the bitmap-conservation property) -/

/-- All sectors owned by the header at `s`: the header's own sector, its
direct sectors, and - through a `level = 0` root - the children's data
sectors. -/
def hdrOwnedDeep (st : FS) (s : Nat) : List Nat :=
  let hdr := (st.hdrAt s).getD default
  if hdr.level = 0 then
    s :: (hdr.ownedDirect ++ hdr.ownedDirect.flatMap (fun c => ((st.hdrAt c).getD default).ownedDirect))
  else
    s :: hdr.ownedDirect

/-- Sectors reachable from the in-use entries of the directory file at
`dirSector`, descending into subdirectories (bounded by fuel). -/
def reachableFromDir (st : FS) : Nat → Nat → List Nat
  | 0, _ => []
  | fuel + 1, dirSector =>
    let dir := (st.dirAt dirSector).getD Directory.new
    (dir.table.filter (fun e => e.inUse)).flatMap (fun e =>
      hdrOwnedDeep st e.sector ++ (if e.type then reachableFromDir st fuel e.sector else []))

/-- Every sector the on-disk metadata accounts for: sectors 0 and 1 with
their headers' data sectors, plus everything reachable from the root
directory. -/
def reachableSectors (st : FS) (fuel : Nat) : List Nat :=
  hdrOwnedDeep st FreeMapSector ++ hdrOwnedDeep st DirectorySector ++
    reachableFromDir st fuel DirectorySector

/-- The sequence of bitmap bits cleared by the deallocation phase of `Remove`
(lines 498-510): for a `level = 0` root, first every child header's direct
sectors, then the root's direct sectors (the child header sectors), then the
root's own sector. -/
def removeClearList (st : FS) (fileHdr : FileHeader) (sector : Nat) : List Nat :=
  (if fileHdr.level = 0 then
    fileHdr.ownedDirect.flatMap (fun s => ((st.hdrAt s).getD default).ownedDirect)
  else []) ++ fileHdr.ownedDirect ++ [sector]

/-- The set of sectors a `level = 0` file owns: its root header sector, the
child header sectors the root lists, and every child's data sectors. -/
def fileOwnedSectors (st : FS) (hdr : FileHeader) (sector : Nat) : Finset Nat :=
  {sector} ∪ hdr.ownedDirect.toFinset ∪
    hdr.ownedDirect.toFinset.biUnion (fun c => ((st.hdrAt c).getD default).ownedDirect.toFinset)

/-! ### Concrete scenarios (spec §8, E4/E5 shape) used by several witnesses -/

/-- Format, then `CreateDirectory("d", "/")`. -/
def stDir : FS := (FS.CreateDirectory formatFS "d" "/").2

/-- Format; `CreateDirectory("d", "/")`; `Create("/d/x", 10)`. -/
def stDirX : FS := (FS.Create stDir "/d/x" 10).st

/-- Format, then the E3 creation `Create("/big", 29*128*2)`. -/
def stBig : FS := (FS.Create formatFS "/big" (29 * 128 * 2)).st

/-- A disk on which the root directory holds the subdirectory `d` (header
sector 13) whose table carries an in-use entry whose stored name contains a
slash; re-resolving that child's joined path fails, so its recursive removal
returns false. -/
def stBadChild : FS :=
  { freeMapDisk := ⟨List.replicate NumSectors true⟩
    dirDisk := [(1, ⟨(⟨true, true, 13, "d"⟩ : DirectoryEntry) :: List.replicate 63 default⟩),
                (13, ⟨(⟨true, false, 30, "a/b"⟩ : DirectoryEntry) :: List.replicate 63 default⟩)]
    headers := [(13, ⟨1280, 10, 1, [14, 15, 16, 17, 18, 19, 20, 21, 22, 23]⟩)] }

/-! ### Helper lemmas -/

/-- A hit of the descriptor-slot scan is a free slot with index in `[1, 20)`. -/
theorem firstFreeFd_spec (fdt : FdTable) (i : Nat) (h : firstFreeFd fdt = some i) :
    fdt.getD i none = none ∧ 1 ≤ i ∧ i < 20 := by
  have hp := List.find?_some h
  have hm := List.mem_of_find?_eq_some h
  simp only [List.mem_range'_1] at hm
  refine ⟨?_, hm.1, by omega⟩
  simpa [Option.isNone_iff_eq_none] using hp

/-- Storing `NULL` into a slot that already reads `NULL` leaves the table
unchanged. -/
theorem set_none_of_getD_none (l : FdTable) (i : Nat) (h : l.getD i none = none) :
    l.set i none = l := by
  induction l generalizing i with
  | nil => simp
  | cons a t ih =>
    cases i with
    | zero => simp_all [List.getD]
    | succ n => simp_all [List.getD]

/-- After clearing a slot it reads `NULL`. -/
theorem getD_set_none_self (l : FdTable) (i : Nat) : (l.set i none).getD i none = none := by
  induction l generalizing i with
  | nil => simp
  | cons a t ih =>
    cases i with
    | zero => simp [List.getD]
    | succ n => simpa [List.getD] using ih n

/-! ### C7 -/

/-- C7: on the slash-free path "foo" the backward scan of `SplitPath` ends at
`idx = -1`, so the store `parent[idx] = 0` lands out of bounds and cannot
empty the parent string: the parent stays "foo" instead of becoming "/",
while the name is copied from offset 0 and is the whole input. -/
theorem SplitPath_no_slash_keeps_parent : SplitPath "foo" = ("foo", "foo") := by decide

/-! ### C1 -/

/-- C1 counterexample: on the freshly formatted disk the path "/nope" does
not resolve, `Open` returns the null handle, and yet `Open(char*, int)`
returns descriptor 1 - not -1 as the claim states. -/
theorem openFd_failed_open_counterexample :
    formatFS.Open "/nope" = none ∧ (FS.openFd formatFS initFdTable "/nope").1 = 1 ∧
    (FS.openFd formatFS initFdTable "/nope").1 ≠ -1 := by decide

/-- C1 (amended): `Open(char*, int)` returns -1 exactly when no slot of
`[1, 20)` is free; otherwise it stores the result of `Open(name)` - the null
handle if the open failed - into the lowest free slot and returns that index,
so a failed open leaves the table unchanged but still consumes the call with
a non-negative descriptor. -/
theorem openFd_slot_behavior (st : FS) (fdt : FdTable) (name : String) :
    (firstFreeFd fdt = none → FS.openFd st fdt name = (-1, fdt)) ∧
    (∀ i, firstFreeFd fdt = some i →
      1 ≤ i ∧ i < 20 ∧
      FS.openFd st fdt name = (Int.ofNat i, fdt.set i (st.Open name)) ∧
      (st.Open name = none → (FS.openFd st fdt name).2 = fdt)) := by
  constructor
  · intro h; simp [FS.openFd, h]
  · intro i h
    obtain ⟨hfree, h1, h2⟩ := firstFreeFd_spec fdt i h
    refine ⟨h1, h2, by simp [FS.openFd, h], ?_⟩
    intro hn
    simp [FS.openFd, h, hn, set_none_of_getD_none fdt i hfree]

/-- C1 witness: concrete instantiation of `openFd_slot_behavior` on the
formatted disk, the fresh table, and a path that fails to open. -/
theorem openFd_slot_behavior_witness :
    firstFreeFd initFdTable = some 1 ∧ formatFS.Open "/nope" = none ∧
    FS.openFd formatFS initFdTable "/nope" = (Int.ofNat 1, initFdTable.set 1 (formatFS.Open "/nope")) ∧
    (FS.openFd formatFS initFdTable "/nope").2 = initFdTable := by
  have h := (openFd_slot_behavior formatFS initFdTable "/nope").2 1 (by decide)
  exact ⟨by decide, by decide, h.2.2.1, h.2.2.2 (by decide)⟩

/-! ### C8 -/

/-- C8: for a descriptor in `[1, 20)`, `Close` on an empty slot returns 0 and
changes nothing; on a live slot it clears the slot and returns 1; a second
`Close` of the same descriptor then returns 0. -/
theorem closeFd_idempotent (fdt : FdTable) (id : Int) (h1 : 1 ≤ id) (h2 : id < 20) :
    (fdt.getD id.toNat none = none → closeFd fdt id = some (0, fdt)) ∧
    (∀ s, fdt.getD id.toNat none = some s →
      closeFd fdt id = some (1, fdt.set id.toNat none) ∧
      closeFd (fdt.set id.toNat none) id = some (0, fdt.set id.toNat none)) := by
  have hb0 : (0 : Int) ≤ id := by omega
  constructor
  · intro he
    rw [List.getD_eq_getElem?_getD] at he
    simp [closeFd, hb0, h2, he]
  · intro s hs
    rw [List.getD_eq_getElem?_getD] at hs
    refine ⟨by simp [closeFd, hb0, h2, hs], ?_⟩
    have h3 := getD_set_none_self fdt id.toNat
    rw [List.getD_eq_getElem?_getD] at h3
    simp [closeFd, hb0, h2, h3]

/-- C8 witness: slot 3 live, slot 4 empty, in a concrete table. -/
theorem closeFd_idempotent_witness :
    (closeFd (initFdTable.set 4 none) 4 = some (0, initFdTable.set 4 none)) ∧
    (closeFd (initFdTable.set 3 (some 13)) 3 = some (1, (initFdTable.set 3 (some 13)).set 3 none) ∧
     closeFd ((initFdTable.set 3 (some 13)).set 3 none) 3 =
       some (0, (initFdTable.set 3 (some 13)).set 3 none)) := by
  constructor
  · exact (closeFd_idempotent (initFdTable.set 4 none) 4 (by decide) (by decide)).1 (by decide)
  · exact (closeFd_idempotent (initFdTable.set 3 (some 13)) 3 (by decide) (by decide)).2 (some 13).get! (by decide)

/-! ### C10 -/

/-- C10: the three descriptor operations index the 20-slot table with the
caller-supplied id unchecked; the access is within the table exactly when
`0 ≤ id < 20` (the model returns `none` for the out-of-bounds access). -/
theorem fd_ops_inbounds_iff (w r : Nat → Int) (fdt : FdTable) (id : Int) :
    ((writeFd w fdt id).isSome ↔ 0 ≤ id ∧ id < 20) ∧
    ((readFd r fdt id).isSome ↔ 0 ≤ id ∧ id < 20) ∧
    ((closeFd fdt id).isSome ↔ 0 ≤ id ∧ id < 20) := by
  refine ⟨?_, ?_, ?_⟩
  · unfold writeFd; split
    · cases h : fdt.getD id.toNat none <;> simp_all
    · simp_all
  · unfold readFd; split
    · cases h : fdt.getD id.toNat none <;> simp_all
    · simp_all
  · unfold closeFd; split
    · cases h : fdt.getD id.toNat none <;> simp_all
    · simp_all

/-! ### C2 -/

/-- C2: if `Create` fails for any reason, nothing is flushed: the resulting
disk state - in particular the bitmap file and the parent directory file - is
exactly the pre-call state. -/
theorem Create_failure_atomic (st : FS) (name : String) (size : Nat)
    (h : (FS.Create st name size).success = false) :
    (FS.Create st name size).st = st := by
  revert h
  simp only [FS.Create]
  repeat' split
  all_goals intro h
  all_goals simp_all

/-- C2 witness: creating under the missing parent "/nodir" fails and leaves
the formatted disk untouched. -/
theorem Create_failure_atomic_witness :
    (FS.Create formatFS "/nodir/x" 10).success = false ∧
    (FS.Create formatFS "/nodir/x" 10).st = formatFS :=
  ⟨by decide, Create_failure_atomic formatFS "/nodir/x" 10 (by decide)⟩

/-! ### C3 -/

/-- C3: the conservation claim fails on the code.  After Format;
CreateDirectory("d","/"); Create("/d/x",10); Remove("/d", recursive=true) -
every operation reporting success - bit 24 (the removed file's root-header
sector) is still set in the on-disk bitmap although no reachable header
references sector 24: the outer `Remove` loaded the bitmap before recursing
into the children, so its final write-back resurrects the bits the child's
removal had freed. -/
theorem Remove_recursive_leaks_sectors :
    (FS.CreateDirectory formatFS "d" "/").1 = true ∧
    (FS.Create stDir "/d/x" 10).success = true ∧
    (FS.Remove 5 stDirX "/d" true).success = true ∧
    (FS.Remove 5 stDirX "/d" true).st.freeMapDisk.test 24 = true ∧
    24 ∉ reachableSectors (FS.Remove 5 stDirX "/d" true).st 5 := by
  refine ⟨by decide, by decide, by decide, by decide, by decide⟩

/-! ### C6 -/

/-- C6: non-recursive `Remove` of a directory that still has an in-use entry
prints "directory not empty", returns failure, and mutates nothing: the
result carries the pre-call disk state unchanged. -/
theorem Remove_nonrecursive_nonempty_no_mutation
    (f : Nat) (st : FS) (name parent fn : String) (psec : Nat)
    (hsp : SplitPath name = (parent, fn))
    (ho : st.OpenDir parent = some psec)
    (hfind : ((st.dirAt psec).getD Directory.new).Find fn ≠ -1)
    (htype : (((st.dirAt psec).getD Directory.new).entryAt
      (((st.dirAt psec).getD Directory.new).FindIndex fn)).type = true)
    (hcount : (((st.OpenDir name).bind st.dirAt).getD Directory.new).table.countP
      (fun e => e.inUse) ≠ 0) :
    FS.Remove (f + 1) st name false = ⟨false, st, some (fn ++ ": directory not empty!")⟩ := by
  simp only [FS.Remove, hsp, ho]
  simp [hfind, htype, hcount]

/-- C6 witness: on the E5 scenario disk (with "/d" holding the file "x"),
`Remove("/d", recursive = false)` fails with the not-empty diagnostic and
returns the state unchanged. -/
theorem Remove_nonrecursive_nonempty_no_mutation_witness :
    SplitPath "/d" = ("/", "d") ∧
    stDirX.OpenDir "/" = some 1 ∧
    FS.Remove 5 stDirX "/d" false = ⟨false, stDirX, some "d: directory not empty!"⟩ := by
  refine ⟨by decide, by decide, ?_⟩
  exact Remove_nonrecursive_nonempty_no_mutation 4 stDirX "/d" "/" "d" 1
    (by decide) (by decide) (by decide) (by decide) (by decide)

/-! ### C9 -/

/-- C9: once the entry is found, is a directory, and `recur` is true, the
boolean results of the recursive child removals are discarded: `Remove`
returns true whatever the children's removals returned or did to the disk. -/
theorem Remove_discards_child_results
    (f : Nat) (st : FS) (name parent fn : String) (psec : Nat)
    (hsp : SplitPath name = (parent, fn))
    (ho : st.OpenDir parent = some psec)
    (hfind : ((st.dirAt psec).getD Directory.new).Find fn ≠ -1)
    (htype : (((st.dirAt psec).getD Directory.new).entryAt
      (((st.dirAt psec).getD Directory.new).FindIndex fn)).type = true) :
    (FS.Remove (f + 1) st name true).success = true := by
  simp only [FS.Remove, hsp, ho]
  simp [hfind, htype, finishRemove]

/-- C9 witness: on `stBadChild` the subdirectory "d" holds an entry named
"a/b"; its recursive removal fails (the joined path re-splits at the inner
slash and does not resolve), yet the top-level `Remove("/d", true)` still
returns true. -/
theorem Remove_discards_child_results_witness :
    (FS.Remove 1 stBadChild "/d/a/b" true).success = false ∧
    (FS.Remove 2 stBadChild "/d" true).success = true := by
  refine ⟨by decide, ?_⟩
  exact Remove_discards_child_results 1 stBadChild "/d" "/" "d" 1
    (by decide) (by decide) (by decide) (by decide)

/-! ### C4 support -/

/-- Clearing bit lists in sequence composes by concatenation. -/
theorem clearMany_append (fm : Bitmap) (l1 l2 : List Nat) :
    clearMany fm (l1 ++ l2) = clearMany (clearMany fm l1) l2 := by
  unfold clearMany
  exact List.foldl_append ..

/-- The child loop of `Remove` is the clear-sequence of the children's direct
sectors. -/
theorem deallocChildren_eq_clearMany (st : FS) (fm : Bitmap) (secs : List Nat) :
    deallocChildren st fm secs
      = clearMany fm (secs.flatMap (fun s => ((st.hdrAt s).getD default).ownedDirect)) := by
  induction secs generalizing fm with
  | nil => rfl
  | cons s rest ih =>
    simp only [deallocChildren, List.flatMap_cons, clearMany_append]
    rw [ih]
    rfl

/-- The bitmap written back by `finishRemove` is the incoming working bitmap
with exactly the bits of `removeClearList` cleared, in that order. -/
theorem finishRemove_freeMapDisk (st : FS) (freeMap : Bitmap) (directory : Directory)
    (hdr : FileHeader) (sector psec : Nat) (fn : String) :
    (finishRemove st freeMap directory hdr sector psec fn).st.freeMapDisk
      = clearMany freeMap (removeClearList st hdr sector) := by
  unfold finishRemove removeClearList
  by_cases hl : hdr.level = 0 <;>
    simp [hl, clearMany_append, deallocChildren_eq_clearMany, FileHeader.Deallocate,
      FS.writeDir, clearMany]

/-! ### C4 -/

/-- C4: removing a found file whose root header has `level = 0` clears, in
the working bitmap it writes back, exactly the sequence `removeClearList`:
every child's data sectors, every child header sector (via the root's own
`Deallocate`, whose direct list is exactly the child header sectors), and the
root header's sector.  Under the ownership disjointness a created file
satisfies, that sequence has no duplicates and covers exactly the owned set,
so no bit is cleared twice. -/
theorem Remove_level0_clears_each_owned_once
    (f : Nat) (st : FS) (name parent fn : String) (psec sector : Nat) (hdr : FileHeader)
    (recur : Bool)
    (hsp : SplitPath name = (parent, fn))
    (ho : st.OpenDir parent = some psec)
    (hfind : ((st.dirAt psec).getD Directory.new).Find fn = Int.ofNat sector)
    (htype : (((st.dirAt psec).getD Directory.new).entryAt
      (((st.dirAt psec).getD Directory.new).FindIndex fn)).type = false)
    (hhdr : (st.hdrAt sector).getD default = hdr)
    (hlevel : hdr.level = 0)
    (hnd : hdr.ownedDirect.Nodup)
    (hcnd : ∀ c ∈ hdr.ownedDirect, ((st.hdrAt c).getD default).ownedDirect.Nodup)
    (hpair : hdr.ownedDirect.Pairwise (fun a b =>
      ∀ x ∈ ((st.hdrAt a).getD default).ownedDirect,
        x ∉ ((st.hdrAt b).getD default).ownedDirect))
    (hsep : ∀ c ∈ hdr.ownedDirect, ∀ x ∈ ((st.hdrAt c).getD default).ownedDirect,
      x ∉ hdr.ownedDirect ∧ x ≠ sector)
    (hroot : sector ∉ hdr.ownedDirect) :
    (FS.Remove (f + 1) st name recur).st.freeMapDisk
        = clearMany st.freeMapDisk (removeClearList st hdr sector) ∧
    (removeClearList st hdr sector).Nodup ∧
    (removeClearList st hdr sector).toFinset = fileOwnedSectors st hdr sector := by
  have hne : (Int.ofNat sector : Int) ≠ -1 := by
    rw [Int.ofNat_eq_natCast]; omega
  refine ⟨?_, ?_, ?_⟩
  · simp only [FS.Remove, hsp, ho, hfind, hne, htype, Int.toNat_ofNat, hhdr,
      if_false, Bool.false_eq_true, ite_false, ne_eq, not_false_eq_true]
    have htn : (Int.ofNat sector).toNat = sector := rfl
    rw [htn, finishRemove_freeMapDisk, hhdr]
  · unfold removeClearList
    rw [if_pos hlevel]
    refine List.Nodup.append (List.Nodup.append ?_ hnd ?_) (by simp) ?_
    · exact List.nodup_flatMap.2 ⟨hcnd, hpair.imp (fun {a b} h => h)⟩
    · intro x hx
      simp only [List.mem_flatMap] at hx
      obtain ⟨c, hc, hxc⟩ := hx
      exact (hsep c hc x hxc).1
    · intro x hx
      simp only [List.mem_append, List.mem_flatMap] at hx
      simp only [List.mem_singleton]
      rcases hx with ⟨c, hc, hxc⟩ | hx
      · exact (hsep c hc x hxc).2
      · intro hxs
        subst hxs
        exact hroot hx
  · unfold removeClearList fileOwnedSectors
    rw [if_pos hlevel]
    ext x
    simp only [List.mem_toFinset, List.mem_append, List.mem_singleton, List.mem_flatMap,
      Finset.mem_union, Finset.mem_biUnion, Finset.mem_singleton, List.mem_toFinset]
    constructor
    · rintro ((h | h) | h)
      · exact Or.inr h
      · exact Or.inl (Or.inr h)
      · exact Or.inl (Or.inl h)
    · rintro ((h | h) | h)
      · exact Or.inr h
      · exact Or.inl (Or.inr h)
      · exact Or.inl (Or.inl h)

/-- C4 witness: the E3 file `/big` (root header at sector 13, `level = 0`,
children 14 and 15) instantiates the theorem; every hypothesis is checked by
computation. -/
theorem Remove_level0_clears_each_owned_once_witness :
    (FS.Remove 5 stBig "/big" true).st.freeMapDisk
        = clearMany stBig.freeMapDisk (removeClearList stBig ⟨7424, 2, 0, [14, 15]⟩ 13) ∧
    (removeClearList stBig ⟨7424, 2, 0, [14, 15]⟩ 13).Nodup ∧
    (removeClearList stBig ⟨7424, 2, 0, [14, 15]⟩ 13).toFinset
        = fileOwnedSectors stBig ⟨7424, 2, 0, [14, 15]⟩ 13 :=
  Remove_level0_clears_each_owned_once 4 stBig "/big" "/" "big" 1 13 ⟨7424, 2, 0, [14, 15]⟩ true
    (by decide) (by decide) (by decide) (by decide) (by decide) (by decide) (by decide)
    (by decide) (by decide) (by decide) (by decide)

/-! ### C5 support: FindAndSet draws fresh, distinct sectors -/

/-- Bits that read true keep reading true after a `Mark`. -/
theorem Bitmap.test_mark_of_test (b : Bitmap) (i j : Nat) (h : b.test j = true) :
    (b.mark i).test j = true := by
  unfold Bitmap.test Bitmap.mark at *
  simp only [List.getD_eq_getElem?_getD] at *
  by_cases hij : i = j
  · subst hij
    rcases Nat.lt_or_ge i b.bits.length with hlt | hge
    · simp [List.getElem?_set_self hlt]
    · rw [List.set_eq_of_length_le hge]
      exact h
  · rw [List.getElem?_set_ne hij]
    exact h

/-- What a successful `FindAndSet` means: the returned index read false, and
the result is the bitmap with that index marked (so it now reads true). -/
theorem Bitmap.findAndSet?_eq_some (b : Bitmap) (s : Nat) (b' : Bitmap)
    (h : b.findAndSet? = some (s, b')) :
    b.test s = false ∧ b' = b.mark s ∧ b'.test s = true := by
  unfold Bitmap.findAndSet? at h
  cases hidx : b.bits.findIdx? (fun x => !x) with
  | none => rw [hidx] at h; cases h
  | some i =>
    rw [hidx] at h
    simp only [Option.some.injEq, Prod.mk.injEq] at h
    obtain ⟨rfl, rfl⟩ := h
    obtain ⟨hlen, hp, -⟩ := List.findIdx?_eq_some_iff_getElem.1 hidx
    refine ⟨?_, rfl, ?_⟩
    · unfold Bitmap.test
      simp only [List.getD_eq_getElem?_getD]
      rw [List.getElem?_eq_getElem hlen]
      simpa using hp
    · unfold Bitmap.test Bitmap.mark
      simp [List.getElem?_set_self hlen]

/-- A successful run of `n` `FindAndSet` calls returns `n` distinct sectors,
all of which read false in the starting bitmap. -/
theorem findAndSetN_spec (n : Nat) (b : Bitmap) (h : (findAndSetN b n).ok = true) :
    (findAndSetN b n).sectors.length = n ∧
    (findAndSetN b n).sectors.Nodup ∧
    (∀ s ∈ (findAndSetN b n).sectors, b.test s = false) := by
  induction n generalizing b with
  | zero => simp [findAndSetN]
  | succ n ih =>
    rw [findAndSetN] at h ⊢
    cases hfas : b.findAndSet? with
    | none => rw [hfas] at h; simp at h
    | some sb =>
      obtain ⟨s, b'⟩ := sb
      rw [hfas] at h
      dsimp only at h ⊢
      obtain ⟨hfresh, hmk, hset⟩ := Bitmap.findAndSet?_eq_some b s b' hfas
      obtain ⟨ihlen, ihnd, ihfresh⟩ := ih b' h
      have htailfresh : ∀ x ∈ (findAndSetN b' n).sectors, b.test x = false := by
        intro x hx
        cases hbx : b.test x with
        | false => rfl
        | true =>
          have : b'.test x = true := by
            rw [hmk]; exact Bitmap.test_mark_of_test b s x hbx
          rw [ihfresh x hx] at this
          cases this
      refine ⟨by simp [ihlen], ?_, ?_⟩
      · rw [List.nodup_cons]
        refine ⟨?_, ihnd⟩
        intro hmem
        rw [ihfresh s hmem] at hset
        cases hset
      · intro x hx
        rcases List.mem_cons.1 hx with rfl | hx'
        · exact hfresh
        · exact htailfresh x hx'

/-- The allocation loop builds one header per share. -/
theorem allocateShares_hdrs_length (fm : Bitmap) (shares : List Nat) :
    (allocateShares fm shares).hdrs.length = shares.length := by
  induction shares generalizing fm with
  | nil => rfl
  | cons b rest ih => simp [allocateShares, ih]

/-- On overall success every built level-1 header records its share: the
header keeps `level = 1` and `Allocate` stored the requested byte count. -/
theorem allocateShares_hdrs_shape (fm : Bitmap) (shares : List Nat)
    (h : (allocateShares fm shares).ok = true) :
    (allocateShares fm shares).hdrs.map (fun hd => (hd.level, hd.numBytes))
      = shares.map (fun b => ((1 : Nat), b)) := by
  induction shares generalizing fm with
  | nil => rfl
  | cons b rest ih =>
    rw [allocateShares] at h ⊢
    dsimp only at h ⊢
    rw [Bool.and_eq_true] at h
    obtain ⟨h1, h2⟩ := h
    rw [List.map_cons, List.map_cons, ih _ h2]
    congr 1
    simp only [FileHeader.Allocate] at h1 ⊢
    split at h1
    · exact absurd h1 (by simp)
    · rename_i hcond
      rw [if_neg hcond]

/-- Writing a directory file back does not touch the stored headers. -/
theorem hdrAt_writeDir (st : FS) (s t : Nat) (d : Directory) :
    (st.writeDir s d).hdrAt t = st.hdrAt t := rfl

theorem getAssoc_setAssoc_self {α : Type} (l : List (Nat × α)) (k : Nat) (v : α) :
    getAssoc (setAssoc l k v) k = some v := by
  induction l with
  | nil => simp [setAssoc, getAssoc]
  | cons p rest ih =>
    obtain ⟨k', v'⟩ := p
    by_cases h : k' = k <;> simp [setAssoc, getAssoc, h, ih]

theorem getAssoc_setAssoc_other {α : Type} (l : List (Nat × α)) (k k' : Nat) (v : α)
    (h : k' ≠ k) : getAssoc (setAssoc l k v) k' = getAssoc l k' := by
  have h' : ¬(k = k') := fun hh => h hh.symm
  induction l with
  | nil => simp [setAssoc, getAssoc, h']
  | cons p rest ih =>
    obtain ⟨a, b⟩ := p
    by_cases ha : a = k <;> simp [setAssoc, getAssoc, ha, ih, h']

/-- Writing a header at `s` makes it read back from `s`. -/
theorem hdrAt_writeHdr_self (st : FS) (s : Nat) (h : FileHeader) :
    (st.writeHdr s h).hdrAt s = some h :=
  getAssoc_setAssoc_self st.headers s h

/-- Writing a header at `s` leaves other sectors' headers alone. -/
theorem hdrAt_writeHdr_other (st : FS) (s t : Nat) (h : FileHeader) (hne : t ≠ s) :
    (st.writeHdr s h).hdrAt t = st.hdrAt t :=
  getAssoc_setAssoc_other st.headers s t h hne

/-- A batch of header write-backs leaves unnamed sectors alone. -/
theorem writeHdrs_hdrAt_notin (st : FS) (l : List (Nat × FileHeader)) (s : Nat)
    (h : s ∉ l.map Prod.fst) : (writeHdrs st l).hdrAt s = st.hdrAt s := by
  induction l generalizing st with
  | nil => rfl
  | cons p rest ih =>
    obtain ⟨a, b⟩ := p
    simp only [List.map_cons, List.mem_cons] at h
    push_neg at h
    rw [writeHdrs, ih _ h.2, hdrAt_writeHdr_other _ _ _ _ h.1]

/-- Writing the level-1 headers at distinct sectors makes each sector read
back exactly its header. -/
theorem writeHdrs_lookup_map (st : FS) (secs : List Nat) (hdrs : List FileHeader)
    (hlen : secs.length = hdrs.length) (hnd : secs.Nodup) :
    secs.map (fun s => (writeHdrs st (secs.zip hdrs)).hdrAt s) = hdrs.map some := by
  induction secs generalizing st hdrs with
  | nil =>
    cases hdrs with
    | nil => simp
    | cons hd hh => cases hlen
  | cons s ss ih =>
    cases hdrs with
    | nil => cases hlen
    | cons hd hh =>
      rw [List.zip_cons_cons, List.map_cons, List.map_cons, writeHdrs]
      have hnotin : s ∉ ss := (List.nodup_cons.1 hnd).1
      congr 1
      · rw [writeHdrs_hdrAt_notin]
        · exact hdrAt_writeHdr_self st s hd
        · rw [List.map_fst_zip]
          · exact hnotin
          · simp at hlen
            omega
      · exact ih (st.writeHdr s hd) hh (by simpa using hlen) (List.nodup_cons.1 hnd).2

/-- The share loop does nothing once the remainder is zero. -/
theorem allocSharesGo_zero (fuel : Nat) : allocSharesGo fuel 0 = [] := by
  cases fuel <;> simp [allocSharesGo]

/-- Closed form of the share loop: full chunks of `NumDirect * SectorSize`
bytes, then the remainder. -/
theorem allocSharesGo_closed (fuel remain : Nat) (h : remain ≤ fuel) :
    allocSharesGo fuel remain =
      List.replicate (divRoundUp remain (NumDirect * SectorSize) - 1) (NumDirect * SectorSize)
        ++ (if remain = 0 then []
            else [remain - (divRoundUp remain (NumDirect * SectorSize) - 1)
                    * (NumDirect * SectorSize)]) := by
  have hndb : NumDirect * SectorSize = 3712 := by decide
  rw [hndb]
  revert h
  induction fuel generalizing remain with
  | zero =>
    intro h
    have h0 : remain = 0 := Nat.le_zero.1 h
    subst h0
    simp [allocSharesGo, divRoundUp]
  | succ f ih =>
    intro h
    by_cases h0 : remain = 0
    · subst h0
      simp [allocSharesGo, divRoundUp]
    · simp only [allocSharesGo]
      rw [if_neg h0, hndb]
      by_cases hge : remain ≥ 3712
      · rw [if_pos hge]
        rw [ih (remain - 3712) (by omega)]
        have hL : divRoundUp remain 3712 = divRoundUp (remain - 3712) 3712 + 1 := by
          unfold divRoundUp; omega
        rw [hL, Nat.add_sub_cancel]
        by_cases hz : remain - 3712 = 0
        · have h37 : remain = 3712 := by omega
          subst h37
          decide
        · rw [if_neg hz, if_neg h0]
          generalize hk' : divRoundUp (remain - 3712) 3712 = k
          have hk : 1 ≤ k := by
            rw [← hk']; unfold divRoundUp; omega
          obtain ⟨k', rfl⟩ : ∃ k2, k = k2 + 1 := ⟨k - 1, by omega⟩
          simp only [Nat.add_sub_cancel, List.replicate_succ, List.cons_append]
          have hr : remain - 3712 - k' * 3712 = remain - (k' + 1) * 3712 := by
            omega
          rw [hr]
      · rw [if_neg hge]
        have hL1 : divRoundUp remain 3712 = 1 := by unfold divRoundUp; omega
        rw [hL1, Nat.sub_self, allocSharesGo_zero]
        simp [h0]

/-- Closed form of `allocShares`. -/
theorem allocShares_closed (size : Nat) :
    allocShares size =
      List.replicate (divRoundUp size (NumDirect * SectorSize) - 1) (NumDirect * SectorSize)
        ++ (if size = 0 then []
            else [size - (divRoundUp size (NumDirect * SectorSize) - 1)
                    * (NumDirect * SectorSize)]) :=
  allocSharesGo_closed size size (Nat.le_refl size)

/-- There are exactly `ceil(size / (NumDirect * SectorSize))` shares. -/
theorem allocShares_length (size : Nat) :
    (allocShares size).length = divRoundUp size (NumDirect * SectorSize) := by
  have hndb : NumDirect * SectorSize = 3712 := by decide
  rw [allocShares_closed]
  by_cases h0 : size = 0
  · subst h0
    decide
  · have h1 : 1 ≤ divRoundUp size (NumDirect * SectorSize) := by
      rw [hndb]; unfold divRoundUp; omega
    simp [h0]
    omega

/-- The bitmap flush at the end of `Create` does not touch stored headers. -/
theorem hdrAt_setFreeMap (st : FS) (fm : Bitmap) (t : Nat) :
    ({ st with freeMapDisk := fm }).hdrAt t = st.hdrAt t := rfl

/-- Composition of `writeHdrs_lookup_map` with a field projection. -/
theorem writeHdrs_lookup_map_pair (st : FS) (secs : List Nat) (hdrs : List FileHeader)
    (hlen : secs.length = hdrs.length) (hnd : secs.Nodup) (g : FileHeader → Nat × Nat) :
    secs.map (fun s => ((writeHdrs st (secs.zip hdrs)).hdrAt s).map g)
      = hdrs.map (fun hd => some (g hd)) := by
  have h1 := writeHdrs_lookup_map st secs hdrs hlen hnd
  calc secs.map (fun s => ((writeHdrs st (secs.zip hdrs)).hdrAt s).map g)
      = (secs.map (fun s => (writeHdrs st (secs.zip hdrs)).hdrAt s)).map (Option.map g) := by
        rw [List.map_map]; rfl
    _ = (hdrs.map some).map (Option.map g) := by rw [h1]
    _ = hdrs.map (fun hd => some (g hd)) := by rw [List.map_map]; rfl

/-! ### C5 -/

/-- C5: a successful `Create(name, size)` writes a root header with
`level = 0`, `numBytes = size`, `numSectors = L = ceil(size / (NumDirect*B))`
whose `dataSectors[0..L)` are exactly the `L` drawn level-1 header sectors;
the header stored at the i-th of those sectors is a `level = 1` header whose
recorded byte count is the i-th loop share, and the shares are `L - 1` full
`NumDirect*B` chunks followed by the remainder. -/
theorem Create_success_header_layout (st : FS) (name : String) (size : Nat)
    (h : (FS.Create st name size).success = true) :
    ∃ sector,
      (FS.Create st name size).rootSector = some sector ∧
      (FS.Create st name size).level1Sectors.length
          = divRoundUp size (SectorSize * NumDirect) ∧
      (FS.Create st name size).st.hdrAt sector =
        some ⟨size, divRoundUp size (SectorSize * NumDirect), 0,
          (FS.Create st name size).level1Sectors⟩ ∧
      (FS.Create st name size).level1Sectors.map
          (fun s => ((FS.Create st name size).st.hdrAt s).map (fun hd => (hd.level, hd.numBytes)))
        = (allocShares size).map (fun b => some (((1 : Nat), b) : Nat × Nat)) ∧
      allocShares size =
        List.replicate (divRoundUp size (NumDirect * SectorSize) - 1) (NumDirect * SectorSize)
          ++ (if size = 0 then []
              else [size - (divRoundUp size (NumDirect * SectorSize) - 1)
                      * (NumDirect * SectorSize)]) := by
  have hcomm : SectorSize * NumDirect = NumDirect * SectorSize := Nat.mul_comm _ _
  revert h
  simp only [FS.Create]
  split
  · intro h; exact absurd h (by simp)
  · rename_i psec ho
    split
    · intro h; exact absurd h (by simp)
    · rename_i hnf
      split
      · intro h; exact absurd h (by simp)
      · rename_i sector fm1 hfas
        split
        · intro h; exact absurd h (by simp)
        · rename_i hr1okneg
          split
          · intro h; exact absurd h (by simp)
          · rename_i haddokneg
            split
            · rename_i hallocok
              intro _
              have hok : (findAndSetN fm1 (divRoundUp size (SectorSize * NumDirect))).ok
                  = true := by
                revert hr1okneg
                cases (findAndSetN fm1 (divRoundUp size (SectorSize * NumDirect))).ok <;> simp
              obtain ⟨hlen, hnd, hfresh⟩ :=
                findAndSetN_spec (divRoundUp size (SectorSize * NumDirect)) fm1 hok
              obtain ⟨hfrsec, hmk, hset⟩ :=
                Bitmap.findAndSet?_eq_some st.freeMapDisk sector fm1 hfas
              have hsl : (allocShares size).length = divRoundUp size (SectorSize * NumDirect) := by
                rw [allocShares_length, hcomm]
              have hlenSA :
                  (findAndSetN fm1 (divRoundUp size (SectorSize * NumDirect))).sectors.length
                    = (allocateShares
                        (findAndSetN fm1 (divRoundUp size (SectorSize * NumDirect))).fm
                        (allocShares size)).hdrs.length := by
                rw [allocateShares_hdrs_length, hlen, hsl]
              have hnotin : sector ∉
                  (findAndSetN fm1 (divRoundUp size (SectorSize * NumDirect))).sectors := by
                intro hmem
                rw [hfresh sector hmem] at hset
                cases hset
              refine ⟨sector, rfl, hlen, ?_, ?_, allocShares_closed size⟩
              · simp only [hdrAt_setFreeMap, hdrAt_writeDir]
                rw [writeHdrs_hdrAt_notin _ _ _ ?hni, hdrAt_writeHdr_self]
                case hni =>
                  rw [List.map_fst_zip _ _ (Nat.le_of_eq hlenSA)]
                  exact hnotin
              · simp only [hdrAt_setFreeMap, hdrAt_writeDir]
                rw [writeHdrs_lookup_map_pair _ _ _ hlenSA hnd]
                have hshape := allocateShares_hdrs_shape
                  (findAndSetN fm1 (divRoundUp size (SectorSize * NumDirect))).fm
                  (allocShares size) hallocok
                calc (allocateShares
                        (findAndSetN fm1 (divRoundUp size (SectorSize * NumDirect))).fm
                        (allocShares size)).hdrs.map (fun hd => some (hd.level, hd.numBytes))
                    = ((allocateShares
                        (findAndSetN fm1 (divRoundUp size (SectorSize * NumDirect))).fm
                        (allocShares size)).hdrs.map (fun hd => (hd.level, hd.numBytes))).map
                          some := by rw [List.map_map]; rfl
                  _ = ((allocShares size).map (fun b => (((1 : Nat), b) : Nat × Nat))).map
                        some := by rw [hshape]
                  _ = (allocShares size).map (fun b => some (((1 : Nat), b) : Nat × Nat)) := by
                        rw [List.map_map]; rfl
            · intro h; exact absurd h (by simp)

/-- C5 witness: the E3 creation `Create("/big", 29*128*2)` (two full level-1
shares) instantiates the theorem; the success hypothesis is checked by
computation. -/
theorem Create_success_header_layout_witness :
    (FS.Create formatFS "/big" (29 * 128 * 2)).success = true ∧
    (∃ sector,
      (FS.Create formatFS "/big" (29 * 128 * 2)).rootSector = some sector ∧
      (FS.Create formatFS "/big" (29 * 128 * 2)).level1Sectors.length
          = divRoundUp (29 * 128 * 2) (SectorSize * NumDirect) ∧
      (FS.Create formatFS "/big" (29 * 128 * 2)).st.hdrAt sector =
        some ⟨29 * 128 * 2, divRoundUp (29 * 128 * 2) (SectorSize * NumDirect), 0,
          (FS.Create formatFS "/big" (29 * 128 * 2)).level1Sectors⟩ ∧
      (FS.Create formatFS "/big" (29 * 128 * 2)).level1Sectors.map
          (fun s => ((FS.Create formatFS "/big" (29 * 128 * 2)).st.hdrAt s).map
            (fun hd => (hd.level, hd.numBytes)))
        = (allocShares (29 * 128 * 2)).map (fun b => some (((1 : Nat), b) : Nat × Nat)) ∧
      allocShares (29 * 128 * 2) =
        List.replicate (divRoundUp (29 * 128 * 2) (NumDirect * SectorSize) - 1)
            (NumDirect * SectorSize)
          ++ (if 29 * 128 * 2 = 0 then []
              else [29 * 128 * 2 - (divRoundUp (29 * 128 * 2) (NumDirect * SectorSize) - 1)
                      * (NumDirect * SectorSize)])) :=
  ⟨by decide, Create_success_header_layout formatFS "/big" (29 * 128 * 2) (by decide)⟩
